import Mathlib

/-!
Verification of the pathranger directory-navigation tool (src/main.rs).

The SQLite store is embedded as two lists of records (`directories`, `tags`),
in rowid (insertion) order; SQL statements become list operations.  The
filesystem (`Path::is_dir`), the home directory and the current directory are
an explicit environment.  `process::exit` and SQLite errors become a `Status`
value carried next to the resulting store (the store file persists across a
process exit, so the exit constructor keeps the store).  Clock reads
(`Local::now().to_rfc3339()`) become explicit timestamp-string parameters.
The external fuzzy matcher (`SkimMatcherV2::fuzzy_match`) is an abstract
function `String → Option Int`, as only its option-ness and the surrounding
ranking logic belong to this program.
-/

namespace Pathranger

/-- A row of the `directories` table: path (UNIQUE), visit_count, last_visited. -/
structure DirectoryRecord where
  path : String
  visit_count : Nat
  last_visited : String
deriving DecidableEq, Repr

/-- A row of the `tags` table: name (UNIQUE), path, created_at. -/
structure TagRecord where
  name : String
  path : String
  created_at : String
deriving DecidableEq, Repr

/-- The persistent store: both tables, rows in rowid (insertion) order. -/
structure Store where
  directories : List DirectoryRecord
  tags : List TagRecord
deriving DecidableEq, Repr

/-- External world: `Path::is_dir`, `dirs::home_dir`, `env::current_dir`. -/
structure Env where
  isDir : String → Bool
  home : Option String
  current_dir : String

/-- How a command invocation ends: normal return, `process::exit code`, or a
SQLite error propagated by `?`. -/
inductive Status where
  | ok : Status
  | exited : Nat → Status
  | dbError : String → Status
deriving DecidableEq, Repr

/-- `shellexpand::tilde`: strip a leading `~`; if what remains is empty or
begins with `/`, prepend the home directory (when one is known); any other
input — no leading `~`, a `~user` form, or no home — is returned unchanged. -/
def tilde (home : Option String) (input : String) : String :=
  if input.data.head? = some '~' ∧
      (input.data.tail = [] ∨ input.data.tail.head? = some '/') then
    match home with
    | some h => h ++ ⟨input.data.tail⟩
    | none => input
  else input

/-- Follows the spec's words (§4.1, glossary), for comparison with `tilde`:
the directory a user-supplied string denotes on disk, resolving `~` against
the home directory and a relative string against the current working
directory. This is the equivalence the spec's normalizer contract quantifies
over; it is not part of the code. -/
def denotedDir (home : Option String) (cwd : String) (input : String) :
    String :=
  let e := tilde home input
  if e.data.head? = some '/' then e else cwd ++ "/" ++ e

/-- `record_visit` (main.rs:124-149): tilde-expand the path; if the expanded
path is not a directory, print a diagnostic and return `Ok(())` untouched;
otherwise UPDATE the matching row (count+1, last_visited=now), and if no row
was affected INSERT `(path, 1, now)` (the UNIQUE constraint on `path` is the
dbError branch). -/
def record_visit (env : Env) (s : Store) (path : String) (now : String) :
    Store × Status :=
  let expanded := tilde env.home path
  if env.isDir expanded = false then
    (s, .ok)
  else
    let rows_affected := (s.directories.filter (fun d => d.path = expanded)).length
    let updated := s.directories.map (fun d =>
      if d.path = expanded then
        { d with visit_count := d.visit_count + 1, last_visited := now }
      else d)
    let s1 : Store := { s with directories := updated }
    if rows_affected = 0 then
      if s1.directories.any (fun d => d.path = expanded) then
        (s1, .dbError "UNIQUE constraint failed: directories.path")
      else
        ({ s1 with directories := s1.directories ++ [⟨expanded, 1, now⟩] }, .ok)
    else
      (s1, .ok)

/-- `mark_directory` (main.rs:151-195): resolve the target path (tilde-expand
the given one, else the current directory); `process::exit(1)` if it is not a
directory; then either UPDATE the tag row (path, created_at) if the name
exists or INSERT a new one; finally `record_visit` on the resolved path.
`nowTag` and `nowVisit` are the two separate clock reads. -/
def mark_directory (env : Env) (s : Store) (tag : String) (path? : Option String)
    (nowTag nowVisit : String) : Store × Status :=
  let path := match path? with
    | some p => tilde env.home p
    | none => env.current_dir
  if env.isDir path = false then
    (s, .exited 1)
  else
    let tagFound := s.tags.any (fun t => t.name = tag)
    let s1 : Store :=
      if tagFound then
        { s with tags := s.tags.map (fun t =>
            if t.name = tag then { t with path := path, created_at := nowTag }
            else t) }
      else
        { s with tags := s.tags ++ [⟨tag, path, nowTag⟩] }
    record_visit env s1 path nowVisit

/-- `remove_tag` (main.rs:367-377): DELETE FROM tags WHERE name = tag; the
returned number is `rows_affected`, used only for the user message; the
function returns `Ok(())` either way. -/
def remove_tag (s : Store) (tag : String) : Store × Nat :=
  let remaining := s.tags.filter (fun t => ¬ t.name = tag)
  ({ s with tags := remaining }, s.tags.length - remaining.length)

/-- Stable descending sort by an integer key: models both SQLite
`ORDER BY key DESC` over a rowid scan and Rust `sort_by(|a, b| b.cmp(a))`
(`slice::sort_by` is stable). -/
def sortDescBy (key : α → Int) (l : List α) : List α :=
  l.mergeSort (fun a b => key b ≤ key a)

/-- `list_top_directories` (main.rs:216-233), the rows it displays:
`SELECT path, visit_count, last_visited FROM directories
 ORDER BY visit_count DESC LIMIT count`. -/
def list_top_directories (s : Store) (count : Nat) : List DirectoryRecord :=
  (sortDescBy (fun d => (d.visit_count : Int)) s.directories).take count

/-- The `(path, score)` pairs `search_directories` accumulates: every stored
path whose `fuzzy_match` against the query is `Some score`, in row order
(main.rs:306-315). `fm` is the matcher with the query applied. -/
def fuzzyMatches (fm : String → Option Int) (s : Store) : List (String × Int) :=
  s.directories.filterMap (fun d => (fm d.path).map (fun score => (d.path, score)))

/-- `search_directories` (main.rs:296-338), the rows it displays: the match
list sorted by score descending (stable `sort_by`), truncated by `take(10)`;
an empty list just prints "no matches" and returns `Ok(())`. -/
def search_directories (fm : String → Option Int) (s : Store) :
    List (String × Int) :=
  (sortDescBy (fun m => m.2) (fuzzyMatches fm s)).take 10

/-! ### Helper lemmas -/

theorem record_visit_tags (env : Env) (s : Store) (p now : String) :
    (record_visit env s p now).1.tags = s.tags := by
  simp only [record_visit]
  repeat' split
  all_goals rfl

theorem record_visit_nodir (env : Env) (s : Store) (p now : String)
    (h : env.isDir (tilde env.home p) = false) :
    record_visit env s p now = (s, .ok) := by
  unfold record_visit
  simp [h]

theorem record_visit_insert (env : Env) (s : Store) (p now : String)
    (hdir : env.isDir (tilde env.home p) = true)
    (hfresh : s.directories.filter (fun d => d.path = tilde env.home p) = []) :
    record_visit env s p now =
      ({ s with directories := s.directories ++ [⟨tilde env.home p, 1, now⟩] },
        .ok) := by
  have hnone : ∀ d ∈ s.directories, ¬ d.path = tilde env.home p := by
    intro d hd
    have := List.filter_eq_nil_iff.mp hfresh d hd
    simpa using this
  have hmap : s.directories.map (fun d =>
      if d.path = tilde env.home p then
        { d with visit_count := d.visit_count + 1, last_visited := now }
      else d) = s.directories := by
    have h1 : s.directories.map (fun d =>
        if d.path = tilde env.home p then
          { d with visit_count := d.visit_count + 1, last_visited := now }
        else d) = s.directories.map (fun d => d) :=
      List.map_congr_left (fun d hd => by simp [hnone d hd])
    rw [h1, List.map_id']
  have hany : s.directories.any (fun d => d.path = tilde env.home p) = false := by
    simp only [List.any_eq_false, decide_eq_true_eq]
    exact hnone
  unfold record_visit
  simp [hdir, hfresh, hmap, hany]

theorem record_visit_update (env : Env) (s : Store) (p now : String)
    (r : DirectoryRecord)
    (hdir : env.isDir (tilde env.home p) = true)
    (hone : s.directories.filter (fun d => d.path = tilde env.home p) = [r]) :
    (record_visit env s p now).2 = .ok ∧
    (record_visit env s p now).1.directories.filter
        (fun d => d.path = tilde env.home p) =
      [⟨tilde env.home p, r.visit_count + 1, now⟩] := by
  have hrows : (s.directories.filter
      (fun d => d.path = tilde env.home p)).length = 1 := by
    rw [hone]; rfl
  have hrpath : r.path = tilde env.home p := by
    have hr : r ∈ s.directories.filter (fun d => d.path = tilde env.home p) := by
      rw [hone]; exact List.mem_singleton.mpr rfl
    simpa using (List.mem_filter.mp hr).2
  have hfm : (s.directories.map (fun d =>
      if d.path = tilde env.home p then
        { d with visit_count := d.visit_count + 1, last_visited := now }
      else d)).filter (fun d => d.path = tilde env.home p) =
      [⟨tilde env.home p, r.visit_count + 1, now⟩] := by
    rw [List.filter_map]
    have hcongr : s.directories.filter ((fun d => decide (d.path = tilde env.home p)) ∘
        (fun d => if d.path = tilde env.home p then
          { d with visit_count := d.visit_count + 1, last_visited := now }
        else d)) = s.directories.filter (fun d => d.path = tilde env.home p) := by
      apply List.filter_congr
      intro d _
      by_cases h : d.path = tilde env.home p <;> simp [h]
    rw [hcongr, hone]
    simp [hrpath]
  simp only [record_visit, hdir]
  simp [hrows, hfm]

theorem record_visit_nonfresh (env : Env) (s : Store) (p now : String)
    (hdir : env.isDir (tilde env.home p) = true)
    (hne : s.directories.filter (fun d => d.path = tilde env.home p) ≠ []) :
    record_visit env s p now =
      ({ s with directories := s.directories.map (fun d =>
          if d.path = tilde env.home p then
            { d with visit_count := d.visit_count + 1, last_visited := now }
          else d) }, .ok) := by
  have hlen : (s.directories.filter
      (fun d => d.path = tilde env.home p)).length ≠ 0 := by
    simpa [List.length_eq_zero] using hne
  simp only [record_visit, hdir]
  simp [hlen]

theorem record_visit_status (env : Env) (s : Store) (p now : String) :
    (record_visit env s p now).2 = .ok := by
  by_cases hdir : env.isDir (tilde env.home p) = true
  · by_cases hfresh : s.directories.filter
        (fun d => d.path = tilde env.home p) = []
    · rw [record_visit_insert env s p now hdir hfresh]
    · rw [record_visit_nonfresh env s p now hdir hfresh]
  · rw [record_visit_nodir env s p now (by simpa using hdir)]

theorem record_visit_upsert (env : Env) (s : Store) (p now : String)
    (hdir : env.isDir (tilde env.home p) = true) :
    ∃ r ∈ (record_visit env s p now).1.directories,
      r.path = tilde env.home p ∧ r.last_visited = now := by
  by_cases hfresh : s.directories.filter
      (fun d => d.path = tilde env.home p) = []
  · rw [record_visit_insert env s p now hdir hfresh]
    exact ⟨⟨tilde env.home p, 1, now⟩, by simp, rfl, rfl⟩
  · rw [record_visit_nonfresh env s p now hdir hfresh]
    obtain ⟨d, hd⟩ := List.exists_mem_of_ne_nil _ hfresh
    have hdmem : d ∈ s.directories := (List.mem_filter.mp hd).1
    have hdp : d.path = tilde env.home p := by
      simpa using (List.mem_filter.mp hd).2
    refine ⟨⟨d.path, d.visit_count + 1, now⟩, ?_, hdp, rfl⟩
    have := List.mem_map_of_mem (fun d =>
      if d.path = tilde env.home p then
        { d with visit_count := d.visit_count + 1, last_visited := now }
      else d) hdmem
    simpa [hdp] using this

theorem mark_directory_eq (env : Env) (s : Store) (tag p nt nv : String)
    (hdir : env.isDir (tilde env.home p) = true) :
    mark_directory env s tag (some p) nt nv =
      record_visit env
        (if s.tags.any (fun t => t.name = tag) then
          { s with tags := s.tags.map (fun t =>
              if t.name = tag then
                { t with path := tilde env.home p, created_at := nt }
              else t) }
        else { s with tags := s.tags ++ [⟨tag, tilde env.home p, nt⟩] })
        (tilde env.home p) nv := by
  simp only [mark_directory]
  simp [hdir]

theorem mark_directory_sets_tag (env : Env) (s : Store) (tag p nt nv : String)
    (hdir : env.isDir (tilde env.home p) = true)
    (hinv : (s.tags.filter (fun t => t.name = tag)).length ≤ 1) :
    (mark_directory env s tag (some p) nt nv).2 = .ok ∧
    (mark_directory env s tag (some p) nt nv).1.tags.filter
        (fun t => t.name = tag) = [⟨tag, tilde env.home p, nt⟩] := by
  rw [mark_directory_eq env s tag p nt nv hdir]
  refine ⟨record_visit_status _ _ _ _, ?_⟩
  rw [record_visit_tags]
  by_cases hfound : s.tags.any (fun t => t.name = tag) = true
  · simp only [hfound, if_true]
    obtain ⟨t0, ht0, ht0n⟩ := List.any_eq_true.mp hfound
    have ht0n : t0.name = tag := by simpa using ht0n
    have hmem : t0 ∈ s.tags.filter (fun t => t.name = tag) :=
      List.mem_filter.mpr ⟨ht0, by simp [ht0n]⟩
    have hlen1 : (s.tags.filter (fun t => t.name = tag)).length = 1 := by
      have := List.length_pos.mpr (List.ne_nil_of_mem hmem)
      omega
    obtain ⟨t1, ht1⟩ := List.length_eq_one.mp hlen1
    have ht1n : t1.name = tag := by
      have : t1 ∈ s.tags.filter (fun t => t.name = tag) := by
        rw [ht1]; exact List.mem_singleton.mpr rfl
      simpa using (List.mem_filter.mp this).2
    rw [List.filter_map]
    have hcongr : s.tags.filter ((fun t => decide (t.name = tag)) ∘
        (fun t => if t.name = tag then
          { t with path := tilde env.home p, created_at := nt }
        else t)) = s.tags.filter (fun t => t.name = tag) := by
      apply List.filter_congr
      intro t _
      by_cases h : t.name = tag <;> simp [h]
    rw [hcongr, ht1]
    simp [ht1n]
  · simp only [hfound]
    have hnone : s.tags.filter (fun t => t.name = tag) = [] := by
      rw [List.filter_eq_nil_iff]
      intro t ht
      have := List.any_eq_true.not.mp hfound
      push_neg at this
      simpa using this t ht
    simp [List.filter_append, hnone]

theorem sortDescBy_le_trans (key : α → Int) (a b c : α)
    (hab : decide (key b ≤ key a) = true)
    (hbc : decide (key c ≤ key b) = true) :
    decide (key c ≤ key a) = true := by
  simp only [decide_eq_true_eq] at *
  omega

theorem sortDescBy_le_total (key : α → Int) (a b : α) :
    (decide (key b ≤ key a) || decide (key a ≤ key b)) = true := by
  simp only [Bool.or_eq_true, decide_eq_true_eq]
  omega

theorem sortDescBy_perm (key : α → Int) (l : List α) :
    List.Perm (sortDescBy key l) l :=
  List.mergeSort_perm l _

theorem sortDescBy_sorted (key : α → Int) (l : List α) :
    (sortDescBy key l).Pairwise (fun a b => key b ≤ key a) := by
  have h := @List.sorted_mergeSort _ (fun a b => decide (key b ≤ key a))
    (fun a b c => sortDescBy_le_trans key a b c)
    (fun a b => sortDescBy_le_total key a b) l
  exact h.imp (fun hab => by simpa using hab)

theorem sortDescBy_filter_key (key : α → Int) (l : List α) (c : Int) :
    (sortDescBy key l).filter (fun a => key a = c) =
      l.filter (fun a => key a = c) := by
  have hpair : (l.filter (fun a => key a = c)).Pairwise
      (fun a b => decide (key b ≤ key a) = true) := by
    apply List.pairwise_of_forall_mem_list
    intro a ha b hb
    have ha2 := (List.mem_filter.mp ha).2
    have hb2 := (List.mem_filter.mp hb).2
    simp only [decide_eq_true_eq] at ha2 hb2 ⊢
    omega
  have hsub : List.Sublist (l.filter (fun a => key a = c))
      (sortDescBy key l) := by
    simp only [sortDescBy]
    exact List.sublist_mergeSort (fun a b c => sortDescBy_le_trans key a b c)
      (fun a b => sortDescBy_le_total key a b) hpair (List.filter_sublist l)
  have hself : (l.filter (fun a => key a = c)).filter
      (fun a => key a = c) = l.filter (fun a => key a = c) :=
    List.filter_eq_self.mpr (fun a ha => (List.mem_filter.mp ha).2)
  have hsub2 : List.Sublist (l.filter (fun a => key a = c))
      ((sortDescBy key l).filter (fun a => key a = c)) := by
    have h2 := hsub.filter (fun a => decide (key a = c))
    rwa [hself] at h2
  have hperm : List.Perm ((sortDescBy key l).filter (fun a => key a = c))
      (l.filter (fun a => key a = c)) :=
    (sortDescBy_perm key l).filter _
  exact (hsub2.eq_of_length hperm.length_eq.symm).symm

/-- An environment in which every path names an existing directory. -/
def envAll : Env := ⟨fun _ => true, none, "/"⟩

/-- An environment in which no path names an existing directory. -/
def envNone : Env := ⟨fun _ => false, none, "/"⟩

/-! ### Claims -/

/-- Claim C1: for an existing directory under its canonical path, recording two
visits yields exactly one DirectoryRecord for that path, with `visit_count`
2 and `last_visited` equal to the second visit's timestamp; both calls
return normally. -/
theorem claim_C1 (env : Env) (s : Store) (p t1 t2 : String)
    (hcanon : tilde env.home p = p)
    (hdir : env.isDir p = true)
    (hfresh : s.directories.filter (fun d => d.path = p) = []) :
    (record_visit env s p t1).2 = .ok ∧
    (record_visit env (record_visit env s p t1).1 p t2).2 = .ok ∧
    (record_visit env (record_visit env s p t1).1 p t2).1.directories.filter
        (fun d => d.path = p) = [⟨p, 2, t2⟩] := by
  have hdir' : env.isDir (tilde env.home p) = true := by rw [hcanon]; exact hdir
  have hfresh' : s.directories.filter
      (fun d => d.path = tilde env.home p) = [] := by
    rw [hcanon]; exact hfresh
  have h1 := record_visit_insert env s p t1 hdir' hfresh'
  rw [hcanon] at h1
  have hone : ({ s with directories :=
        s.directories ++ [⟨p, 1, t1⟩] } : Store).directories.filter
      (fun d => d.path = tilde env.home p) = [⟨p, 1, t1⟩] := by
    rw [hcanon]
    simp [List.filter_append, hfresh]
  have h2 := record_visit_update env _ p t2 ⟨p, 1, t1⟩ hdir' hone
  rw [hcanon] at h2
  refine ⟨by rw [h1], ?_, ?_⟩
  · rw [h1]
    exact h2.1
  · rw [h1]
    exact h2.2

theorem claim_C1_witness :
    (record_visit envAll ⟨[], []⟩ "/w" "t1").2 = .ok ∧
    (record_visit envAll (record_visit envAll ⟨[], []⟩ "/w" "t1").1 "/w" "t2").2
      = .ok ∧
    (record_visit envAll (record_visit envAll ⟨[], []⟩ "/w" "t1").1 "/w"
        "t2").1.directories.filter (fun d => d.path = "/w")
      = [⟨"/w", 2, "t2"⟩] :=
  claim_C1 envAll ⟨[], []⟩ "/w" "t1" "t2" rfl rfl rfl

/-- Claim C2: when the (tilde-expanded) path is not an existing directory,
`record_visit` returns normally and leaves the whole store — both the
directories table and the tags table — unchanged. -/
theorem claim_C2 (env : Env) (s : Store) (p now : String)
    (h : env.isDir (tilde env.home p) = false) :
    record_visit env s p now = (s, .ok) :=
  record_visit_nodir env s p now h

theorem claim_C2_witness :
    record_visit envNone ⟨[⟨"/a", 1, "t"⟩], [⟨"n", "/a", "t"⟩]⟩ "/x" "now" =
      (⟨[⟨"/a", 1, "t"⟩], [⟨"n", "/a", "t"⟩]⟩, .ok) :=
  claim_C2 envNone ⟨[⟨"/a", 1, "t"⟩], [⟨"n", "/a", "t"⟩]⟩ "/x" "now" rfl

/-- Claim C8: `remove_tag` leaves no TagRecord with the removed name, reports the
number of deleted rows, is a successful no-op with count 0 on an absent
name, and is idempotent. -/
theorem claim_C8 (s : Store) (tag : String) :
    (remove_tag s tag).1.tags.filter (fun t => t.name = tag) = [] ∧
    (remove_tag s tag).2 = (s.tags.filter (fun t => t.name = tag)).length ∧
    (s.tags.filter (fun t => t.name = tag) = [] → remove_tag s tag = (s, 0)) ∧
    remove_tag (remove_tag s tag).1 tag = ((remove_tag s tag).1, 0) := by
  refine ⟨?_, ?_, ?_, ?_⟩
  · simp [remove_tag, List.filter_filter]
  · have h := List.length_eq_length_filter_add
      (l := s.tags) (fun t => decide (t.name = tag))
    simp only [remove_tag]
    simp only [decide_not] at *
    omega
  · intro hfresh
    have hall : ∀ t ∈ s.tags, ¬ t.name = tag := by
      intro t ht
      simpa using List.filter_eq_nil_iff.mp hfresh t ht
    have hkeep : s.tags.filter (fun t => !decide (t.name = tag)) = s.tags :=
      List.filter_eq_self.mpr (fun t ht => by simpa using hall t ht)
    simp only [remove_tag, decide_not]
    rw [hkeep]
    simp
  · simp [remove_tag, List.filter_filter]

theorem claim_C8_witness :
    remove_tag ⟨[], [⟨"w", "/a", "t"⟩]⟩ "x" = (⟨[], [⟨"w", "/a", "t"⟩]⟩, 0) :=
  (claim_C8 ⟨[], [⟨"w", "/a", "t"⟩]⟩ "x").2.2.1 (by decide)

/-- Claim C3: `mark_directory` has create-or-replace semantics keyed on the tag
name: after tagging one existing directory and then another under the same
name, exactly one TagRecord with that name remains, pointing at the second
(tilde-expanded) path with the second call's timestamp; both calls return
normally. The hypothesis is the UNIQUE(name) invariant of the tags table. -/
theorem claim_C3 (env : Env) (s : Store) (tag p1 p2 nt1 nv1 nt2 nv2 : String)
    (h1 : env.isDir (tilde env.home p1) = true)
    (h2 : env.isDir (tilde env.home p2) = true)
    (hinv : (s.tags.filter (fun t => t.name = tag)).length ≤ 1) :
    (mark_directory env s tag (some p1) nt1 nv1).2 = .ok ∧
    (mark_directory env (mark_directory env s tag (some p1) nt1 nv1).1 tag
        (some p2) nt2 nv2).2 = .ok ∧
    (mark_directory env (mark_directory env s tag (some p1) nt1 nv1).1 tag
        (some p2) nt2 nv2).1.tags.filter (fun t => t.name = tag)
      = [⟨tag, tilde env.home p2, nt2⟩] := by
  obtain ⟨hs1, hf1⟩ := mark_directory_sets_tag env s tag p1 nt1 nv1 h1 hinv
  have hinv1 : ((mark_directory env s tag (some p1) nt1 nv1).1.tags.filter
      (fun t => t.name = tag)).length ≤ 1 := by
    rw [hf1]
    simp
  obtain ⟨hs2, hf2⟩ := mark_directory_sets_tag env _ tag p2 nt2 nv2 h2 hinv1
  exact ⟨hs1, hs2, hf2⟩

theorem claim_C3_witness :
    (mark_directory envAll ⟨[], []⟩ "w" (some "/a") "s1" "v1").2 = .ok ∧
    (mark_directory envAll (mark_directory envAll ⟨[], []⟩ "w" (some "/a")
        "s1" "v1").1 "w" (some "/b") "s2" "v2").2 = .ok ∧
    (mark_directory envAll (mark_directory envAll ⟨[], []⟩ "w" (some "/a")
        "s1" "v1").1 "w" (some "/b") "s2" "v2").1.tags.filter
        (fun t => t.name = "w") = [⟨"w", "/b", "s2"⟩] :=
  claim_C3 envAll ⟨[], []⟩ "w" "/a" "/b" "s1" "v1" "s2" "v2" rfl rfl
    (by decide)

/-- Claim C4: fuzzy search returns only candidates the matcher scores (each result
pair is a stored path with its `Some` score, so unmatched candidates are
absent rather than scored zero), at most 10 of them, sorted by score
descending with ties kept in original candidate order (the sort is stable),
and an all-`None` matcher yields the empty list as a normal outcome. -/
theorem claim_C4 (fm : String → Option Int) (s : Store) :
    (∀ pr ∈ search_directories fm s, fm pr.1 = some pr.2) ∧
    (search_directories fm s).length ≤ 10 ∧
    (search_directories fm s).Pairwise (fun a b => b.2 ≤ a.2) ∧
    (∀ c : Int,
      (sortDescBy (fun m : String × Int => m.2) (fuzzyMatches fm s)).filter
          (fun m => m.2 = c) =
        (fuzzyMatches fm s).filter (fun m => m.2 = c)) ∧
    ((∀ d ∈ s.directories, fm d.path = none) →
      search_directories fm s = []) := by
  refine ⟨?_, List.length_take_le 10 _, ?_, ?_, ?_⟩
  · intro pr hpr
    have h1 : pr ∈ sortDescBy (fun m : String × Int => m.2)
        (fuzzyMatches fm s) := List.mem_of_mem_take hpr
    have h2 : pr ∈ fuzzyMatches fm s :=
      (sortDescBy_perm _ _).mem_iff.mp h1
    obtain ⟨d, hd, hmap⟩ := List.mem_filterMap.mp h2
    cases hfm : fm d.path with
    | none =>
        rw [hfm] at hmap
        exact absurd hmap (by simp)
    | some sc =>
        rw [hfm] at hmap
        have heq : (d.path, sc) = pr := by simpa using hmap
        cases heq
        simpa using hfm
  · have h := sortDescBy_sorted (fun m : String × Int => m.2)
      (fuzzyMatches fm s)
    exact h.sublist (List.take_sublist 10 _)
  · intro c
    exact sortDescBy_filter_key (fun m : String × Int => m.2)
      (fuzzyMatches fm s) c
  · intro hall
    have hnil : fuzzyMatches fm s = [] := by
      simp only [fuzzyMatches]
      rw [List.filterMap_eq_nil_iff]
      intro d hd
      rw [hall d hd]
      rfl
    simp [search_directories, hnil, sortDescBy]

theorem claim_C4_witness :
    search_directories (fun _ => none) ⟨[⟨"/a", 1, "t"⟩], []⟩ = [] :=
  (claim_C4 (fun _ => none) ⟨[⟨"/a", 1, "t"⟩], []⟩).2.2.2.2 (fun _ _ => rfl)

/-- Claim C5: `list_top_directories` returns at most `n` rows, ordered by
`visit_count` descending; rows with equal `visit_count` keep the store's row
order (the embedding's deterministic tie-break), and the output is exactly
the `n`-prefix of the stable descending sort of the table. -/
theorem claim_C5 (s : Store) (n : Nat) :
    (list_top_directories s n).length ≤ n ∧
    (list_top_directories s n).Pairwise
      (fun a b => b.visit_count ≤ a.visit_count) ∧
    (∀ c : Nat,
      (sortDescBy (fun d => (d.visit_count : Int)) s.directories).filter
          (fun d => d.visit_count = c) =
        s.directories.filter (fun d => d.visit_count = c)) ∧
    list_top_directories s n =
      (sortDescBy (fun d => (d.visit_count : Int)) s.directories).take n := by
  refine ⟨List.length_take_le n _, ?_, ?_, rfl⟩
  · have h := sortDescBy_sorted
      (fun d : DirectoryRecord => (d.visit_count : Int)) s.directories
    have h2 : (sortDescBy (fun d : DirectoryRecord => (d.visit_count : Int))
        s.directories).Pairwise (fun a b => b.visit_count ≤ a.visit_count) :=
      h.imp (fun hab => by exact_mod_cast hab)
    exact h2.sublist (List.take_sublist n _)
  · intro c
    have h := sortDescBy_filter_key
      (fun d : DirectoryRecord => (d.visit_count : Int)) s.directories (c : Int)
    have hpred : (fun d : DirectoryRecord =>
        decide ((d.visit_count : Int) = (c : Int))) =
        (fun d : DirectoryRecord => decide (d.visit_count = c)) := by
      funext d
      simp
    rwa [hpred] at h

/-- Claim C6: `mark_directory` on a path that does not resolve to an existing
directory exits with code 1 (non-zero), leaving the store — tags and
directories — exactly as it was. -/
theorem claim_C6 (env : Env) (s : Store) (tag : String) (path? : Option String)
    (nt nv : String)
    (h : env.isDir (match path? with
      | some p => tilde env.home p
      | none => env.current_dir) = false) :
    mark_directory env s tag path? nt nv = (s, .exited 1) := by
  simp only [mark_directory]
  simp [h]

theorem claim_C6_witness :
    mark_directory envNone ⟨[], []⟩ "w" (some "/nope") "a" "b" =
      (⟨[], []⟩, .exited 1) :=
  claim_C6 envNone ⟨[], []⟩ "w" (some "/nope") "a" "b" rfl

/-- Claim C7: a successful `mark_directory` also records a visit — the resulting
store holds a DirectoryRecord for the tagged path whose `last_visited` is the
visit timestamp — and, conversely, `record_visit` never creates or modifies
any TagRecord. (The second hypothesis, that re-expanding the already-expanded
path is stable, reflects `record_visit` calling `tilde` again on the path
`mark_directory` already expanded.) -/
theorem claim_C7 :
    (∀ (env : Env) (s : Store) (tag p nt nv : String),
      env.isDir (tilde env.home p) = true →
      tilde env.home (tilde env.home p) = tilde env.home p →
      (mark_directory env s tag (some p) nt nv).2 = .ok ∧
      ∃ r ∈ (mark_directory env s tag (some p) nt nv).1.directories,
        r.path = tilde env.home p ∧ r.last_visited = nv) ∧
    (∀ (env : Env) (s : Store) (p now : String),
      (record_visit env s p now).1.tags = s.tags) := by
  constructor
  · intro env s tag p nt nv hdir hidem
    rw [mark_directory_eq env s tag p nt nv hdir]
    have hdir2 : env.isDir (tilde env.home (tilde env.home p)) = true := by
      rw [hidem]
      exact hdir
    refine ⟨record_visit_status _ _ _ _, ?_⟩
    have h := record_visit_upsert env
      (if s.tags.any (fun t => t.name = tag) then
        { s with tags := s.tags.map (fun t =>
            if t.name = tag then
              { t with path := tilde env.home p, created_at := nt }
            else t) }
      else { s with tags := s.tags ++ [⟨tag, tilde env.home p, nt⟩] })
      (tilde env.home p) nv hdir2
    rw [hidem] at h
    exact h
  · exact record_visit_tags

theorem claim_C7_witness :
    ((mark_directory envAll ⟨[], []⟩ "w" (some "/d") "a" "b").2 = .ok ∧
      ∃ r ∈ (mark_directory envAll ⟨[], []⟩ "w" (some "/d") "a"
          "b").1.directories, r.path = "/d" ∧ r.last_visited = "b") ∧
    (record_visit envAll ⟨[], []⟩ "/d" "n").1.tags = [] :=
  ⟨claim_C7.1 envAll ⟨[], []⟩ "w" "/d" "a" "b" rfl rfl,
   claim_C7.2 envAll ⟨[], []⟩ "/d" "n"⟩

theorem tilde_no_tilde (home : Option String) (input : String)
    (h : input.data.head? ≠ some '~') : tilde home input = input := by
  unfold tilde
  rw [if_neg]
  intro hc
  exact h hc.1

/-- Claim C9 counterexample: with home `/home/u` and current directory `/home/u`,
the relative spelling `work` and the absolute spelling `/home/u/work` denote
the same directory, yet the normalizer the code uses (`tilde`) maps them to
different strings; on the relative spelling its output is not even an
absolute path. -/
theorem claim_C9_counterexample :
    denotedDir (some "/home/u") "/home/u" "work" =
      denotedDir (some "/home/u") "/home/u" "/home/u/work" ∧
    tilde (some "/home/u") "work" ≠ tilde (some "/home/u") "/home/u/work" ∧
    (tilde (some "/home/u") "work").data.head? ≠ some '/' :=
  ⟨by decide, by decide, by decide⟩

/-- Claim C9 (amended): the normalizer is `~`-expansion only: it deterministically
maps a `~/`-prefixed spelling and the corresponding home-absolute spelling to
the identical absolute string (for an absolute home directory), and passes
every input that does not begin with `~` — relative or malformed —
through unchanged rather than erroring; distinct relative and absolute
spellings of the same directory are therefore not unified. -/
theorem claim_C9 (hm rest : String) (home : Option String) (input : String)
    (habs : hm.data.head? = some '/') :
    tilde (some hm) ("~/" ++ rest) = hm ++ "/" ++ rest ∧
    tilde (some hm) (hm ++ "/" ++ rest) = hm ++ "/" ++ rest ∧
    (input.data.head? ≠ some '~' → tilde home input = input) := by
  refine ⟨?_, ?_, tilde_no_tilde home input⟩
  · have hd : ("~/" ++ rest).data = '~' :: '/' :: rest.data := by
      rw [String.data_append]
      rfl
    have h2 : ("/" ++ rest : String) = ⟨'/' :: rest.data⟩ := by
      apply String.ext
      rw [String.data_append]
      rfl
    calc tilde (some hm) ("~/" ++ rest) = hm ++ ⟨'/' :: rest.data⟩ := by
          simp [tilde, hd]
      _ = hm ++ ("/" ++ rest) := by rw [h2]
      _ = hm ++ "/" ++ rest := (String.append_assoc hm "/" rest).symm
  · apply tilde_no_tilde
    have hd : (hm ++ "/" ++ rest).data = hm.data ++ ("/" ++ rest).data := by
      rw [String.append_assoc, String.data_append]
    obtain ⟨t, ht⟩ : ∃ t, hm.data = '/' :: t := by
      cases hme : hm.data with
      | nil => rw [hme] at habs; exact absurd habs (by simp)
      | cons c t =>
          rw [hme] at habs
          simp only [List.head?_cons, Option.some.injEq] at habs
          exact ⟨t, by rw [habs]⟩
    rw [hd, ht]
    simp

theorem claim_C9_witness :
    tilde (some "/home/u") ("~/" ++ "work") = "/home/u" ++ "/" ++ "work" ∧
    tilde none "rel" = "rel" :=
  ⟨(claim_C9 "/home/u" "work" none "rel" rfl).1,
   (claim_C9 "/home/u" "work" none "rel" rfl).2.2 (by decide)⟩

/-- Claim C10: `remove_tag` never touches the directories table: every
DirectoryRecord is exactly as before, whether or not a tag was deleted. -/
theorem claim_C10 (s : Store) (tag : String) :
    (remove_tag s tag).1.directories = s.directories := rfl

end Pathranger
